import Mathlib

/-!
Verification of the TVB ("testy virtual buffer") core against its
specification.  The definitions below are a shallow embedding of tvbuff.c:
`guint` values are `Nat` with explicit reduction mod 2^32 wherever the C
arithmetic can wrap, `gint` values are `Int`, and the two THROWable error
kinds (plus the hard abort of DISSECTOR_ASSERT_NOT_REACHED) appear as an
`Except` error type.
-/

namespace TVBSpec

/-- The two exception kinds thrown by `THROW` in tvbuff.c (`BoundsError` is
the captured-bounds kind, `ReportedBoundsError` the reported-bounds kind),
plus the hard abort of `DISSECTOR_ASSERT_NOT_REACHED`. -/
inductive Exc where
  | BoundsError
  | ReportedBoundsError
  | AssertNotReached

/-- C cast of a signed `gint` value to an unsigned 32-bit `guint`. -/
def gcast (x : Int) : Nat := (x % 4294967296).toNat

/-- C conversion of an unsigned 32-bit value to a signed `gint`
(wrap of the unsigned value at 2^31, as on a two-complement host). -/
def toGint (n : Nat) : Int :=
  if n % 4294967296 < 2147483648 then ((n % 4294967296 : Nat) : Int)
  else ((n % 4294967296 : Nat) : Int) - 4294967296

/-- The bounds-relevant fields of a tvbuff: captured `length` and
`reported_length`, both `guint` fields of `struct tvbuff`. -/
structure TVB0 where
  length : Nat
  reported_length : Nat

/-- The length-normalization half of `compute_offset_length`
(tvbuff.c lines 371-386): `length == -1` means "to the end of the captured
data", any other negative length is a `BoundsError`; the subtraction
`tvb->length - *offset_ptr` is `guint` arithmetic. -/
def computeLength (t : TVB0) (ao : Nat) (length : Int) : Except Exc (Nat × Nat) :=
  if length < -1 then .error .BoundsError
  else if length = -1 then .ok (ao, (((t.length : Int) - (ao : Int)) % 4294967296).toNat)
  else .ok (ao, gcast length)

/-- `compute_offset_length` (tvbuff.c lines 326-387): normalize a
possibly-negative offset and a possibly `-1` length into absolute `guint`
offset and length, with the two-tier reported/captured classification of an
out-of-range offset.  The C comparisons cast the signed offset to `guint`,
and a negative offset is taken relative to the end of the captured data. -/
def compute_offset_length (t : TVB0) (offset length : Int) : Except Exc (Nat × Nat) :=
  if 0 ≤ offset then
    if gcast offset > t.reported_length then .error .ReportedBoundsError
    else if gcast offset > t.length then .error .BoundsError
    else computeLength t (gcast offset) length
  else
    if gcast (-offset) > t.reported_length then .error .ReportedBoundsError
    else if gcast (-offset) > t.length then .error .BoundsError
    else computeLength t ((((t.length : Int) + offset) % 4294967296).toNat) length

/-- The end-offset computation of `check_offset_length_no_exception`
(tvbuff.c lines 405-413): `end_offset = *offset_ptr + *length_ptr` in
`guint` arithmetic, clamped to `UINT_MAX` when the addition wrapped. -/
def clampEnd (ao al : Nat) : Nat :=
  if (ao + al) % 4294967296 < ao then 4294967295 else (ao + al) % 4294967296

/-- `check_offset_length_no_exception` (tvbuff.c lines 390-439): normalize
offset and length, then classify the access by comparing the (clamped) end
offset first against the captured length, then against the reported
length.  The throwing entry point `check_offset_length` raises exactly the
error kind returned here. -/
def check_offset_length_no_exception (t : TVB0) (offset length : Int) :
    Except Exc (Nat × Nat) :=
  match compute_offset_length t offset length with
  | .error e => .error e
  | .ok (ao, al) =>
    if clampEnd ao al ≤ t.length then .ok (ao, al)
    else if clampEnd ao al ≤ t.reported_length then .error .BoundsError
    else .error .ReportedBoundsError

/-- `tvb_ensure_bytes_exist` (tvbuff.c lines 660-681): every negative
length, `-1` included, throws `ReportedBoundsError` before any range
normalization; otherwise the throwing range check runs. -/
def tvb_ensure_bytes_exist (t : TVB0) (offset length : Int) : Except Exc Unit :=
  if length < 0 then .error .ReportedBoundsError
  else
    match check_offset_length_no_exception t offset length with
    | .error e => .error e
    | .ok _ => .ok ()

theorem compute_offset_length_ok_bounds (t : TVB0) (o L : Int) (ao al : Nat)
    (hlen : t.length < 4294967296)
    (hL1 : -2147483648 ≤ L) (hL2 : L < 2147483648)
    (h : compute_offset_length t o L = .ok (ao, al)) :
    ao ≤ t.length ∧ al < 4294967296 := by
  unfold compute_offset_length computeLength gcast at h
  split_ifs at h <;>
    simp only [Except.ok.injEq, Prod.mk.injEq, reduceCtorEq] at h <;>
    obtain ⟨rfl, rfl⟩ := h <;> omega

theorem clampEnd_eq_min (ao al : Nat) (h1 : ao < 4294967296) (h2 : al < 4294967296) :
    clampEnd ao al = min (ao + al) 4294967295 := by
  unfold clampEnd
  split_ifs <;> omega

/-- C1: for every buffer, signed offset and signed length whose
normalization by `compute_offset_length` succeeds with absolute offset
`ao` and absolute length `al`, the bounds check classifies the access by
`ao + al` clamped to `UINT_MAX`: at most the captured length means
success, else at most the reported length means the captured-bounds error
(`BoundsError`), else the reported-bounds error. -/
theorem c1_range_check_classification (t : TVB0) (o L : Int) (ao al : Nat)
    (hlen : t.length < 4294967296) (hrep : t.reported_length < 4294967296)
    (hL1 : -2147483648 ≤ L) (hL2 : L < 2147483648)
    (h : compute_offset_length t o L = .ok (ao, al)) :
    check_offset_length_no_exception t o L =
      (if min (ao + al) 4294967295 ≤ t.length then .ok (ao, al)
       else if min (ao + al) 4294967295 ≤ t.reported_length then .error .BoundsError
       else .error .ReportedBoundsError) := by
  obtain ⟨h1, h2⟩ := compute_offset_length_ok_bounds t o L ao al hlen hL1 hL2 h
  unfold check_offset_length_no_exception
  rw [h]
  dsimp only
  rw [clampEnd_eq_min ao al (by omega) h2]

theorem c1_range_check_classification_witness :
    check_offset_length_no_exception ⟨4, 16⟩ 2 6 =
      (if min (2 + 6) 4294967295 ≤ (4 : Nat) then .ok (2, 6)
       else if min (2 + 6) 4294967295 ≤ (16 : Nat) then .error .BoundsError
       else .error .ReportedBoundsError) :=
  c1_range_check_classification ⟨4, 16⟩ 2 6 2 6 (by decide) (by decide)
    (by decide) (by decide) rfl

/-- C8: `tvb_ensure_bytes_exist` throws `ReportedBoundsError` for every
negative length, unconditionally; for a non-negative length it fails with
exactly the error kind of the range check, and succeeds when the range
check succeeds. -/
theorem c8_ensure_bytes_exist_negative (t : TVB0) (offset length : Int) :
    (length < 0 → tvb_ensure_bytes_exist t offset length = .error .ReportedBoundsError)
    ∧ (0 ≤ length → ∀ e, check_offset_length_no_exception t offset length = .error e →
        tvb_ensure_bytes_exist t offset length = .error e)
    ∧ (0 ≤ length → ∀ p, check_offset_length_no_exception t offset length = .ok p →
        tvb_ensure_bytes_exist t offset length = .ok ()) := by
  refine ⟨fun hneg => ?_, fun hpos e he => ?_, fun hpos p hp => ?_⟩ <;>
    unfold tvb_ensure_bytes_exist
  · rw [if_pos hneg]
  · rw [if_neg (by omega), he]
  · rw [if_neg (by omega), hp]

theorem c8_ensure_bytes_exist_negative_witness :
    tvb_ensure_bytes_exist ⟨10, 10⟩ 0 (-1) = .error .ReportedBoundsError :=
  (c8_ensure_bytes_exist_negative ⟨10, 10⟩ 0 (-1)).1 (by decide)

/-!
Buffer variants.  The model covers Real buffers and Subset windows over
them.  The `data` of a Real buffer is exactly its captured bytes (constructor
contract of `tvb_set_real_data`); a Subset over such a backing caches
`backing->real_data + subset.offset` (tvbuff.c lines 486-490), so every
modelled buffer carries a direct byte pointer, modelled by `real_data`.
-/

inductive TVB where
  | real (data : List Nat) (reported_length : Nat)
  | sub (backing : TVB) (off len reported_length : Nat)

/-- `tvb->length`: the captured length of a Real buffer is the length of
its data; that of a Subset is the normalized window length (tvbuff.c
line 475). -/
def TVB.length : TVB → Nat
  | .real d _ => d.length
  | .sub _ _ len _ => len

/-- `tvb->reported_length`. -/
def TVB.reported_length : TVB → Nat
  | .real _ r => r
  | .sub _ _ _ r => r

/-- `tvb->real_data`: the cached direct byte pointer, modelled as the byte
suffix it points to. -/
def TVB.real_data : TVB → List Nat
  | .real d _ => d
  | .sub b off _ _ => b.real_data.drop off

/-- The start offset of the subset window within its backing
(`tvb->tvbuffs.subset.offset`). -/
def TVB.start : TVB → Nat
  | .real _ _ => 0
  | .sub _ off _ _ => off

/-- Forget the byte content, keeping the two bounds fields. -/
def TVB.toB (t : TVB) : TVB0 := ⟨t.length, t.reported_length⟩

/-- Well-formedness: every stored byte is an octet, and a subset window
lies inside its backing (guaranteed by the bounds check in `tvb_set_subset`). -/
def TVB.wfb : TVB → Bool
  | .real d _ => d.all (fun b => decide (b < 256))
  | .sub b off len _ => b.wfb && decide (off + len ≤ b.length)

/-- `tvb_set_subset` / `tvb_new_subset` (tvbuff.c lines 458-522): reject
`reported_length < -1`, bounds-check the window against the backing buffer
(throwing on failure), set the length of the subset to the normalized window
length, and inherit `backing.reported_length - backing_offset` when the
caller passed `-1` (a `guint` subtraction). -/
def tvb_new_subset (backing : TVB) (backing_offset backing_length reported_length : Int) :
    Except Exc TVB :=
  if reported_length < -1 then .error .ReportedBoundsError
  else
    match check_offset_length_no_exception backing.toB backing_offset backing_length with
    | .error e => .error e
    | .ok (off, len) =>
      .ok (.sub backing off len
        (if reported_length = -1
         then (((backing.reported_length : Int) - (off : Int)) % 4294967296).toNat
         else gcast reported_length))

/-- `ensure_contiguous_no_exception` (tvbuff.c lines 832-865) on the
modelled buffers: after the range check, every modelled buffer has a
cached `real_data` pointer, so the result is the `abs_length`-byte slice
at `real_data + abs_offset` (the variant dispatch on lines 851-860 is
unreachable when `tvb->real_data` is set). -/
def ensure_contiguous (t : TVB) (offset length : Int) : Except Exc (List Nat) :=
  match check_offset_length_no_exception t.toB offset length with
  | .error e => .error e
  | .ok (ao, al) => .ok ((t.real_data.drop ao).take al)

/-- `fast_ensure_contiguous` (tvbuff.c lines 868-894): negative offsets
fall back to the general resolver; otherwise `end_offset = u_offset +
length` (no wrap possible: `length <= 8`) is compared against the captured
length, then the reported length. -/
def fast_ensure_contiguous (t : TVB) (offset : Int) (length : Nat) : Except Exc (List Nat) :=
  if offset < 0 then ensure_contiguous t offset (length : Int)
  else
    if gcast offset + length ≤ t.length then
      .ok ((t.real_data.drop (gcast offset)).take length)
    else if gcast offset + length > t.reported_length then .error .ReportedBoundsError
    else .error .BoundsError

/-- `pntohs`: big-endian 16-bit read of two bytes. -/
def pntohs (p : List Nat) : Nat := (p.getD 0 0) <<< 8 ||| p.getD 1 0

/-- `pntohl`: big-endian 32-bit read of four bytes. -/
def pntohl (p : List Nat) : Nat :=
  (p.getD 0 0) <<< 24 ||| (p.getD 1 0) <<< 16 ||| (p.getD 2 0) <<< 8 ||| p.getD 3 0

/-- `pntoh64`: big-endian 64-bit read of eight bytes. -/
def pntoh64 (p : List Nat) : Nat :=
  (p.getD 0 0) <<< 56 ||| (p.getD 1 0) <<< 48 ||| (p.getD 2 0) <<< 40 |||
  (p.getD 3 0) <<< 32 ||| (p.getD 4 0) <<< 24 ||| (p.getD 5 0) <<< 16 |||
  (p.getD 6 0) <<< 8 ||| p.getD 7 0

/-- `tvb_get_guint8` (tvbuff.c lines 1109-1116). -/
def tvb_get_guint8 (t : TVB) (offset : Int) : Except Exc Nat :=
  (fast_ensure_contiguous t offset 1).map (fun p => p.getD 0 0)

/-- `tvb_get_ntohs` (tvbuff.c lines 1118-1125). -/
def tvb_get_ntohs (t : TVB) (offset : Int) : Except Exc Nat :=
  (fast_ensure_contiguous t offset 2).map pntohs

/-- `tvb_get_ntohl` (tvbuff.c lines 1136-1143). -/
def tvb_get_ntohl (t : TVB) (offset : Int) : Except Exc Nat :=
  (fast_ensure_contiguous t offset 4).map pntohl

/-- `tvb_get_ntoh64` (tvbuff.c lines 1145-1152). -/
def tvb_get_ntoh64 (t : TVB) (offset : Int) : Except Exc Nat :=
  (fast_ensure_contiguous t offset 8).map pntoh64

theorem check_ok_inv (t : TVB0) (o L : Int) (ao al : Nat)
    (h : check_offset_length_no_exception t o L = .ok (ao, al)) :
    compute_offset_length t o L = .ok (ao, al) ∧ clampEnd ao al ≤ t.length := by
  unfold check_offset_length_no_exception at h
  cases hc : compute_offset_length t o L with
  | error e => rw [hc] at h; exact absurd h (by simp)
  | ok p =>
    obtain ⟨a, b⟩ := p
    rw [hc] at h
    dsimp only at h
    split_ifs at h with h1 h2 <;>
      simp only [Except.ok.injEq, Prod.mk.injEq, reduceCtorEq] at h
    obtain ⟨rfl, rfl⟩ := h
    exact ⟨rfl, h1⟩

theorem compute_offset_length_ok_le (t : TVB0) (o L : Int) (ao al : Nat)
    (hlen : t.length < 4294967296)
    (h : compute_offset_length t o L = .ok (ao, al)) : ao ≤ t.length := by
  unfold compute_offset_length computeLength gcast at h
  split_ifs at h <;>
    simp only [Except.ok.injEq, Prod.mk.injEq, reduceCtorEq] at h <;>
    obtain ⟨rfl, rfl⟩ := h <;> omega

theorem compute_nat_ok (t : TVB0) (i n : Nat) (ao al : Nat)
    (hi : i < 4294967296) (hn : n < 4294967296)
    (h : compute_offset_length t (i : Int) (n : Int) = .ok (ao, al)) :
    ao = i ∧ al = n := by
  unfold compute_offset_length computeLength gcast at h
  split_ifs at h <;>
    simp only [Except.ok.injEq, Prod.mk.injEq, reduceCtorEq] at h <;>
    first
    | contradiction
    | (exfalso; omega)
    | (obtain ⟨h3, h4⟩ := h; constructor <;> omega)

/-- C2: an access at offset exactly `B.length` with length 0 passes the
bounds check for every buffer satisfying the captured/reported invariant;
concretely, over a 10-byte backing with reported length 10,
`tvb_new_subset(backing, 10, 0, 0)` succeeds with a length-0 buffer, and
`tvb_get_guint8` at offset 0 on that subset throws the reported-bounds
error. -/
theorem c2_zero_length_at_eof :
    (∀ t : TVB0, t.length ≤ t.reported_length → t.length < 2147483648 →
      check_offset_length_no_exception t (t.length : Int) 0 = .ok (t.length, 0))
    ∧ tvb_new_subset (.real [0, 1, 2, 3, 4, 5, 6, 7, 8, 9] 10) 10 0 0 =
        .ok (.sub (.real [0, 1, 2, 3, 4, 5, 6, 7, 8, 9] 10) 10 0 0)
    ∧ (TVB.sub (.real [0, 1, 2, 3, 4, 5, 6, 7, 8, 9] 10) 10 0 0).length = 0
    ∧ tvb_get_guint8 (.sub (.real [0, 1, 2, 3, 4, 5, 6, 7, 8, 9] 10) 10 0 0) 0 =
        .error .ReportedBoundsError := by
  refine ⟨fun t h1 h2 => ?_, rfl, rfl, rfl⟩
  have hc : compute_offset_length t (t.length : Int) 0 = .ok (t.length, 0) := by
    unfold compute_offset_length computeLength gcast
    split_ifs <;>
      first
      | (exfalso; omega)
      | (simp only [Except.ok.injEq, Prod.mk.injEq]; constructor <;> omega)
  unfold check_offset_length_no_exception
  rw [hc]
  dsimp only
  have he : clampEnd t.length 0 = t.length := by
    unfold clampEnd
    split_ifs <;> omega
  rw [he, if_pos (le_refl t.length)]

theorem c2_zero_length_at_eof_witness :
    check_offset_length_no_exception ⟨7, 9⟩ 7 0 = .ok (7, 0) :=
  c2_zero_length_at_eof.1 ⟨7, 9⟩ (by decide) (by decide)

theorem sub_read_shift (b : TVB) (off len r i n : Nat) (bs1 bs2 : List Nat)
    (hlen : b.length < 2147483648) (hoff : off ≤ b.length)
    (hi : i < 2147483648) (hn : n < 2147483648)
    (h1 : ensure_contiguous (.sub b off len r) (i : Int) (n : Int) = .ok bs1)
    (h2 : ensure_contiguous b ((off + i : Nat) : Int) (n : Int) = .ok bs2) :
    bs1 = bs2 := by
  unfold ensure_contiguous at h1 h2
  cases hc1 : check_offset_length_no_exception (TVB.sub b off len r).toB
      (i : Int) (n : Int) with
  | error e =>
    rw [hc1] at h1
    dsimp only at h1
    exact Except.noConfusion h1
  | ok q1 =>
    obtain ⟨ao1, al1⟩ := q1
    rw [hc1] at h1
    dsimp only at h1
    simp only [Except.ok.injEq] at h1
    obtain ⟨hao1, hal1⟩ := compute_nat_ok _ _ _ _ _ (by omega) (by omega)
      (check_ok_inv _ _ _ _ _ hc1).1
    cases hc2 : check_offset_length_no_exception b.toB
        ((off + i : Nat) : Int) (n : Int) with
    | error e =>
      rw [hc2] at h2
      dsimp only at h2
      exact Except.noConfusion h2
    | ok q2 =>
      obtain ⟨ao2, al2⟩ := q2
      rw [hc2] at h2
      dsimp only at h2
      simp only [Except.ok.injEq] at h2
      obtain ⟨hao2, hal2⟩ := compute_nat_ok _ _ _ _ _
        (by show off + i < 4294967296; omega) (by omega)
        (check_ok_inv _ _ _ _ _ hc2).1
      rw [← h1, ← h2, hao1, hal1, hao2, hal2]
      show ((b.real_data.drop off).drop i).take n =
        (b.real_data.drop (off + i)).take n
      rw [List.drop_drop, Nat.add_comm]

theorem tvb_new_subset_ok_inv (backing : TVB) (bo bl rl : Int) (S : TVB)
    (h : tvb_new_subset backing bo bl rl = .ok S) :
    ∃ off len r, check_offset_length_no_exception backing.toB bo bl = .ok (off, len)
      ∧ S = .sub backing off len r := by
  unfold tvb_new_subset at h
  cases hck : check_offset_length_no_exception backing.toB bo bl with
  | error e =>
    rw [hck] at h
    split_ifs at h
  | ok p =>
    obtain ⟨off, len⟩ := p
    rw [hck] at h
    split_ifs at h
    all_goals try (dsimp only at h)
    all_goals try exact Except.noConfusion h
    all_goals
      simp only [Except.ok.injEq] at h
      exact ⟨off, len, _, rfl, h.symm⟩

/-- C6: a read from a subset buffer agrees byte-for-byte with the read
from its backing buffer at the window-shifted offset, whenever both reads
succeed. -/
theorem c6_subset_read_agrees (B S : TVB) (bo bl rl : Int) (i n : Nat)
    (bs1 bs2 : List Nat)
    (hlen : B.length < 2147483648) (hi : i < 2147483648) (hn : n < 2147483648)
    (hS : tvb_new_subset B bo bl rl = .ok S)
    (h1 : ensure_contiguous S (i : Int) (n : Int) = .ok bs1)
    (h2 : ensure_contiguous B ((S.start + i : Nat) : Int) (n : Int) = .ok bs2) :
    bs1 = bs2 := by
  obtain ⟨off, len, r, hck, rfl⟩ := tvb_new_subset_ok_inv B bo bl rl S hS
  have hoff : off ≤ B.length :=
    compute_offset_length_ok_le B.toB bo bl off len
      (by show B.length < 4294967296; omega) (check_ok_inv _ _ _ _ _ hck).1
  exact sub_read_shift B off len r i n bs1 bs2 hlen hoff hi hn h1 h2

theorem c6_subset_read_agrees_witness :
    tvb_new_subset (.real [1, 2, 3, 4, 5] 5) 1 3 (-1) =
        .ok (.sub (.real [1, 2, 3, 4, 5] 5) 1 3 4)
    ∧ ensure_contiguous (.sub (.real [1, 2, 3, 4, 5] 5) 1 3 4) 0 2 = .ok [2, 3]
    ∧ ensure_contiguous (.real [1, 2, 3, 4, 5] 5)
        (((TVB.sub (.real [1, 2, 3, 4, 5] 5) 1 3 4).start + 0 : Nat) : Int) 2 =
        .ok [2, 3]
    ∧ ([2, 3] : List Nat) = [2, 3] := by
  have hsub : tvb_new_subset (.real [1, 2, 3, 4, 5] 5) 1 3 (-1) =
      .ok (.sub (.real [1, 2, 3, 4, 5] 5) 1 3 4) := rfl
  have hr1 : ensure_contiguous (.sub (.real [1, 2, 3, 4, 5] 5) 1 3 4) 0 2 =
      .ok [2, 3] := rfl
  have hr2 : ensure_contiguous (.real [1, 2, 3, 4, 5] 5)
      (((TVB.sub (.real [1, 2, 3, 4, 5] 5) 1 3 4).start + 0 : Nat) : Int) 2 =
      .ok [2, 3] := rfl
  refine ⟨hsub, hr1, hr2, ?_⟩
  exact c6_subset_read_agrees (.real [1, 2, 3, 4, 5] 5)
    (.sub (.real [1, 2, 3, 4, 5] 5) 1 3 4) 1 3 (-1) 0 2 [2, 3] [2, 3]
    (by decide) (by decide) (by decide) hsub hr1 hr2

/-!
Bit-field accessors (tvbuff.c lines 1505-1714).  `guintN` variables are
modelled as `Nat` with the C truncations written as `% 2^N`; the `gint`
inputs (`bit_offset`, `no_of_bits`) are `Int`, with `>> 3` written as
Euclidean division by 8 and `& 7` as the Euclidean remainder (both agree
with the C arithmetic shift and mask on two-complement hosts). -/

/-- `bit_mask8` (tvbuff.c lines 1505-1514). -/
def bit_mask8 : List Nat := [0xff, 0x7f, 0x3f, 0x1f, 0x0f, 0x07, 0x03, 0x01]

/-- `bit_mask16` (tvbuff.c lines 1517-1526). -/
def bit_mask16 : List Nat :=
  [0xffff, 0x7fff, 0x3fff, 0x1fff, 0x0fff, 0x07ff, 0x03ff, 0x01ff]

/-- `bit_mask32` (tvbuff.c lines 1565-1574). -/
def bit_mask32 : List Nat :=
  [0xffffffff, 0x7fffffff, 0x3fffffff, 0x1fffffff,
   0x0fffffff, 0x07ffffff, 0x03ffffff, 0x01ffffff]

/-- `bit_mask64` (tvbuff.c lines 1619-1628). -/
def bit_mask64 : List Nat :=
  [0xffffffffffffffff, 0x7fffffffffffffff, 0x3fffffffffffffff,
   0x1fffffffffffffff, 0x0fffffffffffffff, 0x07ffffffffffffff,
   0x03ffffffffffffff, 0x01ffffffffffffff]

/-- `tvb_get_bits8` (tvbuff.c lines 1528-1559): widths above 8 abort;
`tot_no_bits = (bit_offset & 7) + no_of_bits` (a `guint8`) selects a
one-octet or two-octet read; the leading bits are masked off and the value
right-shifted flush, then truncated to `guint8`. -/
def tvb_get_bits8 (t : TVB) (bit_offset no_of_bits : Int) : Except Exc Nat :=
  if no_of_bits > 8 then .error .AssertNotReached
  else if (((bit_offset % 8) + no_of_bits) % 256).toNat ≤ 8 then
    (tvb_get_guint8 t (bit_offset / 8)).map
      (fun v => ((v &&& bit_mask8.getD (bit_offset % 8).toNat 0) >>>
        (8 - (((bit_offset % 8) + no_of_bits) % 256).toNat)) % 256)
  else
    (tvb_get_ntohs t (bit_offset / 8)).map
      (fun v => ((v &&& bit_mask16.getD (bit_offset % 8).toNat 0) >>>
        (16 - (((bit_offset % 8) + no_of_bits) % 256).toNat)) % 256)

/-- `tvb_get_bits16` (tvbuff.c lines 1575-1616): widths outside 8..16 and
little-endian bit order abort; a two-octet big-endian read is masked, then
shifted flush when `tot_no_bits < 16`, or extended with a third octet when
`tot_no_bits > 16` (the extension is stored back into a `guint16`). -/
def tvb_get_bits16 (t : TVB) (bit_offset no_of_bits : Int) (little_endian : Bool) :
    Except Exc Nat :=
  if no_of_bits < 8 ∨ no_of_bits > 16 then .error .AssertNotReached
  else if little_endian then .error .AssertNotReached
  else
    match tvb_get_ntohs t (bit_offset / 8) with
    | .error e => .error e
    | .ok v0 =>
      if (((bit_offset % 8) + no_of_bits) % 256).toNat < 16 then
        .ok ((v0 &&& bit_mask16.getD (bit_offset % 8).toNat 0) >>>
          (16 - (((bit_offset % 8) + no_of_bits) % 256).toNat))
      else if (((bit_offset % 8) + no_of_bits) % 256).toNat > 16 then
        (tvb_get_guint8 t (bit_offset / 8 + 2)).map
          (fun tv => ((((v0 &&& bit_mask16.getD (bit_offset % 8).toNat 0) <<<
            ((((bit_offset % 8) + no_of_bits) % 256).toNat - 16)) % 65536) |||
            (tv >>> (24 - (((bit_offset % 8) + no_of_bits) % 256).toNat))) % 65536)
      else .ok (v0 &&& bit_mask16.getD (bit_offset % 8).toNat 0)

/-- `tvb_get_bits32` (tvbuff.c lines 1630-1671): widths outside 17..32 and
little-endian bit order abort; a four-octet big-endian read is masked,
then shifted flush or extended with a fifth octet. -/
def tvb_get_bits32 (t : TVB) (bit_offset no_of_bits : Int) (little_endian : Bool) :
    Except Exc Nat :=
  if no_of_bits < 17 ∨ no_of_bits > 32 then .error .AssertNotReached
  else if little_endian then .error .AssertNotReached
  else
    match tvb_get_ntohl t (bit_offset / 8) with
    | .error e => .error e
    | .ok v0 =>
      if (((bit_offset % 8) + no_of_bits) % 256).toNat < 32 then
        .ok ((v0 &&& bit_mask32.getD (bit_offset % 8).toNat 0) >>>
          (32 - (((bit_offset % 8) + no_of_bits) % 256).toNat))
      else if (((bit_offset % 8) + no_of_bits) % 256).toNat > 32 then
        (tvb_get_guint8 t (bit_offset / 8 + 4)).map
          (fun tv => ((((v0 &&& bit_mask32.getD (bit_offset % 8).toNat 0) <<<
            ((((bit_offset % 8) + no_of_bits) % 256).toNat - 32)) % 4294967296) |||
            (tv >>> (40 - (((bit_offset % 8) + no_of_bits) % 256).toNat))) % 4294967296)
      else .ok (v0 &&& bit_mask32.getD (bit_offset % 8).toNat 0)

/-- `tvb_get_bits64` (tvbuff.c lines 1672-1714): widths outside 32..64 and
little-endian bit order abort; an eight-octet big-endian read is masked,
then shifted flush or extended with a ninth octet. -/
def tvb_get_bits64 (t : TVB) (bit_offset no_of_bits : Int) (little_endian : Bool) :
    Except Exc Nat :=
  if no_of_bits < 32 ∨ no_of_bits > 64 then .error .AssertNotReached
  else if little_endian then .error .AssertNotReached
  else
    match tvb_get_ntoh64 t (bit_offset / 8) with
    | .error e => .error e
    | .ok v0 =>
      if (((bit_offset % 8) + no_of_bits) % 256).toNat < 64 then
        .ok ((v0 &&& bit_mask64.getD (bit_offset % 8).toNat 0) >>>
          (64 - (((bit_offset % 8) + no_of_bits) % 256).toNat))
      else if (((bit_offset % 8) + no_of_bits) % 256).toNat > 64 then
        (tvb_get_guint8 t (bit_offset / 8 + 8)).map
          (fun tv => ((((v0 &&& bit_mask64.getD (bit_offset % 8).toNat 0) <<<
            ((((bit_offset % 8) + no_of_bits) % 256).toNat - 64)) % 18446744073709551616) |||
            (tv >>> (72 - (((bit_offset % 8) + no_of_bits) % 256).toNat))) %
            18446744073709551616)
      else .ok (v0 &&& bit_mask64.getD (bit_offset % 8).toNat 0)

theorem real_data_bytes_lt (t : TVB) (ht : t.wfb = true) :
    ∀ x ∈ t.real_data, x < 256 := by
  induction t with
  | real d r =>
    intro x hx
    unfold TVB.wfb at ht
    simp only [List.all_eq_true, decide_eq_true_eq] at ht
    exact ht x hx
  | sub b off len r ih =>
    intro x hx
    unfold TVB.wfb at ht
    simp only [Bool.and_eq_true] at ht
    exact ih ht.1 x (List.mem_of_mem_drop hx)

theorem getD_lt_256 (l : List Nat) (i : Nat) (h : ∀ x ∈ l, x < 256) :
    l.getD i 0 < 256 := by
  induction l generalizing i with
  | nil => simp [List.getD]
  | cons a as ih =>
    cases i with
    | zero => simpa using h a (List.mem_cons_self a as)
    | succ j =>
      show as.getD j 0 < 256
      exact ih j (fun x hx => h x (List.mem_cons_of_mem a hx))

theorem slice_bytes_lt (t : TVB) (ht : t.wfb = true) (a b i : Nat) :
    ((t.real_data.drop a).take b).getD i 0 < 256 :=
  getD_lt_256 _ i (fun x hx => real_data_bytes_lt t ht x
    (List.mem_of_mem_drop (List.mem_of_mem_take hx)))

theorem fast_ok_slice (t : TVB) (off : Int) (len : Nat) (bs : List Nat)
    (h : fast_ensure_contiguous t off len = .ok bs) :
    ∃ a b, bs = (t.real_data.drop a).take b := by
  unfold fast_ensure_contiguous at h
  split_ifs at h with h1 h2 h3
  all_goals try exact Except.noConfusion h
  · unfold ensure_contiguous at h
    cases hc : check_offset_length_no_exception t.toB off (len : Int) with
    | error e =>
      rw [hc] at h
      dsimp only at h
      exact Except.noConfusion h
    | ok q =>
      obtain ⟨ao, al⟩ := q
      rw [hc] at h
      dsimp only at h
      simp only [Except.ok.injEq] at h
      exact ⟨ao, al, h.symm⟩
  · simp only [Except.ok.injEq] at h
    exact ⟨gcast off, len, h.symm⟩

theorem fast_map_ok_bound (t : TVB) (off : Int) (len : Nat) (f : List Nat → Nat)
    (v w : Nat) (ht : t.wfb = true)
    (hf : ∀ p : List Nat, (∀ i, p.getD i 0 < 256) → f p < 2 ^ w)
    (h : (fast_ensure_contiguous t off len).map f = .ok v) : v < 2 ^ w := by
  cases hfe : fast_ensure_contiguous t off len with
  | error e => rw [hfe] at h; exact Except.noConfusion h
  | ok bs =>
    rw [hfe] at h
    simp only [Except.map, Except.ok.injEq] at h
    obtain ⟨a, b, rfl⟩ := fast_ok_slice t off len bs hfe
    rw [← h]
    exact hf _ (fun i => slice_bytes_lt t ht a b i)

theorem byte_shift_lt (x k w : Nat) (hx : x < 256) (hkw : k + 8 ≤ w) :
    x <<< k < 2 ^ w := by
  rw [Nat.shiftLeft_eq]
  have hp : (0 : Nat) < 2 ^ k := Nat.two_pow_pos k
  have h1 : x * 2 ^ k < 256 * 2 ^ k := Nat.mul_lt_mul_of_pos_right hx hp
  have h2 : (256 : Nat) * 2 ^ k = 2 ^ (k + 8) := by
    rw [Nat.pow_add]
    ring
  have h3 : (2 : Nat) ^ (k + 8) ≤ 2 ^ w := Nat.pow_le_pow_right (by omega) hkw
  omega

theorem pntohs_lt (p : List Nat) (h : ∀ i, p.getD i 0 < 256) : pntohs p < 2 ^ 16 := by
  unfold pntohs
  exact Nat.or_lt_two_pow (byte_shift_lt _ 8 16 (h 0) (by omega))
    (lt_trans (h 1) (by norm_num))

theorem pntohl_lt (p : List Nat) (h : ∀ i, p.getD i 0 < 256) : pntohl p < 2 ^ 32 := by
  unfold pntohl
  exact Nat.or_lt_two_pow (Nat.or_lt_two_pow (Nat.or_lt_two_pow
    (byte_shift_lt _ 24 32 (h 0) (by omega)) (byte_shift_lt _ 16 32 (h 1) (by omega)))
    (byte_shift_lt _ 8 32 (h 2) (by omega)))
    (lt_trans (h 3) (by norm_num))

theorem pntoh64_lt (p : List Nat) (h : ∀ i, p.getD i 0 < 256) : pntoh64 p < 2 ^ 64 := by
  unfold pntoh64
  exact Nat.or_lt_two_pow (Nat.or_lt_two_pow (Nat.or_lt_two_pow (Nat.or_lt_two_pow
    (Nat.or_lt_two_pow (Nat.or_lt_two_pow (Nat.or_lt_two_pow
      (byte_shift_lt _ 56 64 (h 0) (by omega)) (byte_shift_lt _ 48 64 (h 1) (by omega)))
      (byte_shift_lt _ 40 64 (h 2) (by omega))) (byte_shift_lt _ 32 64 (h 3) (by omega)))
      (byte_shift_lt _ 24 64 (h 4) (by omega))) (byte_shift_lt _ 16 64 (h 5) (by omega)))
      (byte_shift_lt _ 8 64 (h 6) (by omega)))
    (lt_trans (h 7) (by norm_num))

theorem tvb_get_guint8_lt (t : TVB) (off : Int) (v : Nat) (ht : t.wfb = true)
    (h : tvb_get_guint8 t off = .ok v) : v < 2 ^ 8 := by
  unfold tvb_get_guint8 at h
  exact fast_map_ok_bound t off 1 _ v 8 ht
    (fun p hp => lt_of_lt_of_le (hp 0) (by norm_num)) h

theorem tvb_get_ntohs_lt (t : TVB) (off : Int) (v : Nat) (ht : t.wfb = true)
    (h : tvb_get_ntohs t off = .ok v) : v < 2 ^ 16 := by
  unfold tvb_get_ntohs at h
  exact fast_map_ok_bound t off 2 _ v 16 ht (fun p hp => pntohs_lt p hp) h

theorem tvb_get_ntohl_lt (t : TVB) (off : Int) (v : Nat) (ht : t.wfb = true)
    (h : tvb_get_ntohl t off = .ok v) : v < 2 ^ 32 := by
  unfold tvb_get_ntohl at h
  exact fast_map_ok_bound t off 4 _ v 32 ht (fun p hp => pntohl_lt p hp) h

theorem tvb_get_ntoh64_lt (t : TVB) (off : Int) (v : Nat) (ht : t.wfb = true)
    (h : tvb_get_ntoh64 t off = .ok v) : v < 2 ^ 64 := by
  unfold tvb_get_ntoh64 at h
  exact fast_map_ok_bound t off 8 _ v 64 ht (fun p hp => pntoh64_lt p hp) h

theorem and_mask_eq (v n m : Nat) (hm : m = 2 ^ n - 1) (hv : v < 2 ^ n) :
    v &&& m = v := by
  subst hm
  exact Nat.and_pow_two_sub_one_of_lt_two_pow hv

/-- C7: at byte-aligned bit offsets the bit-field accessors agree with the
big-endian byte accessors: `get_bits8(B, 8k, 8) = get_u8(B, k)`,
`get_bits16(B, 8k, 16) = get_u16_be(B, k)`, `get_bits32(B, 8k, 32) =
get_u32_be(B, k)` and `get_bits64(B, 8k, 64) = get_u64_be(B, k)`.  The
equalities hold as `Except` values (errors included), so in particular the
values agree whenever the underlying byte reads succeed. -/
theorem c7_aligned_bits_agree (t : TVB) (k : Nat) (ht : t.wfb = true) :
    tvb_get_bits8 t (8 * (k : Int)) 8 = tvb_get_guint8 t (k : Int)
    ∧ tvb_get_bits16 t (8 * (k : Int)) 16 false = tvb_get_ntohs t (k : Int)
    ∧ tvb_get_bits32 t (8 * (k : Int)) 32 false = tvb_get_ntohl t (k : Int)
    ∧ tvb_get_bits64 t (8 * (k : Int)) 64 false = tvb_get_ntoh64 t (k : Int) := by
  have e1 : (8 * (k : Int)) / 8 = (k : Int) := by omega
  have e2 : (8 * (k : Int)) % 8 = 0 := by omega
  refine ⟨?_, ?_, ?_, ?_⟩
  · unfold tvb_get_bits8
    rw [if_neg (by norm_num : ¬((8 : Int) > 8)), e1, e2]
    have e3 : (((0 : Int) + 8) % 256).toNat = 8 := by decide
    rw [e3, if_pos (by norm_num : (8 : Nat) ≤ 8)]
    cases hv : tvb_get_guint8 t (k : Int) with
    | error e => rfl
    | ok v =>
      have hlt : v < 2 ^ 8 := tvb_get_guint8_lt t _ v ht hv
      have hlt2 : v < 256 := by norm_num at hlt; exact hlt
      show Except.ok (((v &&& 255) >>> (8 - 8)) % 256) = Except.ok v
      rw [and_mask_eq v 8 255 (by norm_num) hlt]
      norm_num [Nat.shiftRight_zero, Nat.mod_eq_of_lt hlt2]
  · unfold tvb_get_bits16
    rw [if_neg (by norm_num : ¬((16 : Int) < 8 ∨ (16 : Int) > 16)),
      if_neg Bool.false_ne_true, e1, e2]
    cases hv : tvb_get_ntohs t (k : Int) with
    | error e => rfl
    | ok v =>
      dsimp only
      have hlt : v < 2 ^ 16 := tvb_get_ntohs_lt t _ v ht hv
      have e3 : (((0 : Int) + 16) % 256).toNat = 16 := by decide
      rw [e3, if_neg (by norm_num : ¬((16 : Nat) < 16)),
        if_neg (by norm_num : ¬((16 : Nat) > 16))]
      show Except.ok (v &&& 65535) = Except.ok v
      rw [and_mask_eq v 16 65535 (by norm_num) hlt]
  · unfold tvb_get_bits32
    rw [if_neg (by norm_num : ¬((32 : Int) < 17 ∨ (32 : Int) > 32)),
      if_neg Bool.false_ne_true, e1, e2]
    cases hv : tvb_get_ntohl t (k : Int) with
    | error e => rfl
    | ok v =>
      dsimp only
      have hlt : v < 2 ^ 32 := tvb_get_ntohl_lt t _ v ht hv
      have e3 : (((0 : Int) + 32) % 256).toNat = 32 := by decide
      rw [e3, if_neg (by norm_num : ¬((32 : Nat) < 32)),
        if_neg (by norm_num : ¬((32 : Nat) > 32))]
      show Except.ok (v &&& 4294967295) = Except.ok v
      rw [and_mask_eq v 32 4294967295 (by norm_num) hlt]
  · unfold tvb_get_bits64
    rw [if_neg (by norm_num : ¬((64 : Int) < 32 ∨ (64 : Int) > 64)),
      if_neg Bool.false_ne_true, e1, e2]
    cases hv : tvb_get_ntoh64 t (k : Int) with
    | error e => rfl
    | ok v =>
      dsimp only
      have hlt : v < 2 ^ 64 := tvb_get_ntoh64_lt t _ v ht hv
      have e3 : (((0 : Int) + 64) % 256).toNat = 64 := by decide
      rw [e3, if_neg (by norm_num : ¬((64 : Nat) < 64)),
        if_neg (by norm_num : ¬((64 : Nat) > 64))]
      show Except.ok (v &&& 18446744073709551615) = Except.ok v
      rw [and_mask_eq v 64 18446744073709551615 (by norm_num) hlt]

theorem c7_aligned_bits_agree_witness :
    tvb_get_bits8 (.real [1, 2, 3, 4, 5, 6, 7, 8] 8) (8 * ((0 : Nat) : Int)) 8 =
      tvb_get_guint8 (.real [1, 2, 3, 4, 5, 6, 7, 8] 8) ((0 : Nat) : Int)
    ∧ tvb_get_bits16 (.real [1, 2, 3, 4, 5, 6, 7, 8] 8) (8 * ((0 : Nat) : Int)) 16 false =
      tvb_get_ntohs (.real [1, 2, 3, 4, 5, 6, 7, 8] 8) ((0 : Nat) : Int)
    ∧ tvb_get_bits32 (.real [1, 2, 3, 4, 5, 6, 7, 8] 8) (8 * ((0 : Nat) : Int)) 32 false =
      tvb_get_ntohl (.real [1, 2, 3, 4, 5, 6, 7, 8] 8) ((0 : Nat) : Int)
    ∧ tvb_get_bits64 (.real [1, 2, 3, 4, 5, 6, 7, 8] 8) (8 * ((0 : Nat) : Int)) 64 false =
      tvb_get_ntoh64 (.real [1, 2, 3, 4, 5, 6, 7, 8] 8) ((0 : Nat) : Int) :=
  c7_aligned_bits_agree (.real [1, 2, 3, 4, 5, 6, 7, 8] 8) 0 (by decide)

/-!
Byte search and string scanning (tvbuff.c lines 911-945 and 1716-1895).
-/

/-- The loop skeleton shared by `guint8_find` and `guint8_pbrk`
(tvbuff.c lines 911-945): walk the haystack and return the index of the
first byte satisfying the match condition. -/
def byteScan (p : Nat → Bool) : List Nat → Option Nat
  | [] => none
  | b :: rest => if p b then some 0 else (byteScan p rest).map (· + 1)

/-- `guint8_find` (tvbuff.c lines 911-924): first occurrence of `needle`. -/
def guint8_find (haystack : List Nat) (needle : Nat) : Option Nat :=
  byteScan (fun b => decide (b = needle)) haystack

/-- `guint8_pbrk` (tvbuff.c lines 926-945): first occurrence of any byte
of the zero-terminated needle string (the inner loop stops at the first
`0` in `needles`, so a byte matches iff it occurs before that `0`). -/
def guint8_pbrk (haystack : List Nat) (needles : List Nat) : Option Nat :=
  byteScan (fun b => decide (b ∈ needles.takeWhile (fun x => decide (x ≠ 0)))) haystack

theorem byteScan_some (p : Nat → Bool) (l : List Nat) (i : Nat)
    (h : byteScan p l = some i) :
    i < l.length ∧ p (l.getD i 0) = true ∧ ∀ j < i, p (l.getD j 0) = false := by
  induction l generalizing i with
  | nil => exact Option.noConfusion h
  | cons a as ih =>
    unfold byteScan at h
    split_ifs at h with ha
    · simp only [Option.some.injEq] at h
      subst h
      exact ⟨by simp, ha, by omega⟩
    · cases hf : byteScan p as with
      | none => rw [hf] at h; exact Option.noConfusion h
      | some j =>
        rw [hf] at h
        simp only [Option.map, Option.some.injEq] at h
        subst h
        obtain ⟨hj1, hj2, hj3⟩ := ih j hf
        refine ⟨by simpa using hj1, hj2, ?_⟩
        intro j2 hj2lt
        cases j2 with
        | zero => simpa using ha
        | succ j3 => exact hj3 j3 (by omega)

theorem byteScan_none (p : Nat → Bool) (l : List Nat)
    (h : byteScan p l = none) : ∀ j < l.length, p (l.getD j 0) = false := by
  induction l with
  | nil => intro j hj; simp at hj
  | cons a as ih =>
    unfold byteScan at h
    split_ifs at h with ha
    intro j hj
    cases j with
    | zero => simpa using ha
    | succ j2 =>
      cases hf : byteScan p as with
      | none => exact ih hf j2 (by simpa using hj)
      | some m =>
        rw [hf] at h
        dsimp only [Option.map] at h
        exact Option.noConfusion h

/-- `tvb_length_remaining` (tvbuff.c lines 595-608): the normalized
remaining captured length, or `-1` (without raising) when the offset is
out of range. -/
def tvb_length_remaining (t : TVB) (offset : Int) : Int :=
  match compute_offset_length t.toB offset (-1) with
  | .ok (_, al) => toGint al
  | .error _ => -1

/-- `tvb_find_guint8` (tvbuff.c lines 1723-1777): validate the starting
offset with a zero-length bounds check (which throws on failure); limit
the search to at most `maxlength` bytes (`-1`: to the end of the captured
data, via `tvb_length_remaining` stored into a `guint`); scan the cached
bytes and return the absolute offset of the match, or `-1`.  Every
modelled buffer carries `real_data`, so the variant dispatch of lines
1761-1773 is unreachable here. -/
def tvb_find_guint8 (t : TVB) (offset maxlength : Int) (needle : Nat) :
    Except Exc Int :=
  match check_offset_length_no_exception t.toB offset 0 with
  | .error e => .error e
  | .ok (ao, _) =>
    .ok (match guint8_find ((t.real_data.drop ao).take
        (if maxlength = -1 then gcast (tvb_length_remaining t (toGint ao))
         else if gcast (tvb_length_remaining t (toGint ao)) < gcast maxlength then
           gcast (tvb_length_remaining t (toGint ao))
         else gcast maxlength)) needle with
      | some i => toGint (ao + i)
      | none => -1)

/-- `tvb_pbrk_guint8` (tvbuff.c lines 1787-1840): as `tvb_find_guint8`,
matching any byte of the zero-terminated needle string. -/
def tvb_pbrk_guint8 (t : TVB) (offset maxlength : Int) (needles : List Nat) :
    Except Exc Int :=
  match check_offset_length_no_exception t.toB offset 0 with
  | .error e => .error e
  | .ok (ao, _) =>
    .ok (match guint8_pbrk ((t.real_data.drop ao).take
        (if maxlength = -1 then gcast (tvb_length_remaining t (toGint ao))
         else if gcast (tvb_length_remaining t (toGint ao)) < gcast maxlength then
           gcast (tvb_length_remaining t (toGint ao))
         else gcast maxlength)) needles with
      | some i => toGint (ao + i)
      | none => -1)

/-- `tvb_strsize` (tvbuff.c lines 1847-1873): find the terminating zero
byte from `offset` on; return the byte count including the terminator, or
throw `BoundsError` when the capture is short of the reported length and
`ReportedBoundsError` otherwise. -/
def tvb_strsize (t : TVB) (offset : Int) : Except Exc Nat :=
  match check_offset_length_no_exception t.toB offset 0 with
  | .error e => .error e
  | .ok (ao, _) =>
    match tvb_find_guint8 t (toGint ao) (-1) 0 with
    | .error e => .error e
    | .ok nul_offset =>
      if nul_offset = -1 then
        if t.length < t.reported_length then .error .BoundsError
        else .error .ReportedBoundsError
      else .ok (gcast (nul_offset - (ao : Int) + 1))

theorem toGint_small (n : Nat) (h : n < 2147483648) : toGint n = (n : Int) := by
  unfold toGint
  split_ifs <;> omega

theorem gcast_ofNat_small (n : Nat) (h : n < 4294967296) : gcast (n : Int) = n := by
  unfold gcast
  omega

theorem length_remaining_at (t : TVB) (ao : Nat) (hao : ao ≤ t.length)
    (hlr : t.length ≤ t.reported_length) (hl : t.length < 2147483648) :
    tvb_length_remaining t ((ao : Nat) : Int) = ((t.length - ao : Nat) : Int) := by
  unfold tvb_length_remaining
  have hc2 : compute_offset_length t.toB (ao : Int) (-1) = .ok (ao, t.length - ao) := by
    unfold compute_offset_length computeLength gcast
    dsimp only [TVB.toB]
    rw [if_pos (by omega : (0 : Int) ≤ (ao : Int))]
    rw [if_neg (by omega), if_neg (by omega)]
    rw [if_neg (by norm_num), if_pos rfl]
    simp only [Except.ok.injEq, Prod.mk.injEq]
    constructor <;> omega
  rw [hc2]
  dsimp only
  exact toGint_small _ (by omega)

theorem check_ok_le_length (t : TVB) (offset L : Int) (ao j0 : Nat)
    (hl : t.length < 2147483648)
    (hck : check_offset_length_no_exception t.toB offset L = .ok (ao, j0)) :
    ao ≤ t.length := by
  have h2 := compute_offset_length_ok_le t.toB offset L ao j0
    (by dsimp only [TVB.toB]; omega) (check_ok_inv _ _ _ _ _ hck).1
  dsimp only [TVB.toB] at h2
  exact h2

theorem tvb_find_spec (t : TVB) (offset maxlength : Int) (needle : Nat)
    (ao j0 lim : Nat)
    (hck : check_offset_length_no_exception t.toB offset 0 = .ok (ao, j0))
    (hlr : t.length ≤ t.reported_length) (hl : t.length < 2147483648)
    (hm : maxlength = -1 ∨ (0 ≤ maxlength ∧ maxlength < 2147483648))
    (hlim : lim = if maxlength = -1 then t.length - ao
      else min (t.length - ao) maxlength.toNat) :
    tvb_find_guint8 t offset maxlength needle =
      .ok (match guint8_find ((t.real_data.drop ao).take lim) needle with
        | some i => ((ao + i : Nat) : Int)
        | none => -1) := by
  have hao : ao ≤ t.length := check_ok_le_length t offset 0 ao j0 hl hck
  have hlim2 : lim ≤ t.length - ao := by
    rw [hlim]; split_ifs <;> omega
  unfold tvb_find_guint8
  rw [hck]
  dsimp only
  rw [toGint_small ao (by omega)]
  rw [length_remaining_at t ao hao hlr hl]
  rw [gcast_ofNat_small _ (by omega)]
  have hlimeq : (if maxlength = -1 then t.length - ao
      else if t.length - ao < gcast maxlength then t.length - ao
      else gcast maxlength) = lim := by
    rcases hm with rfl | ⟨hm1, hm2⟩
    · rw [if_pos rfl, hlim, if_pos rfl]
    · rw [if_neg (show ¬(maxlength = -1) by omega), hlim,
        if_neg (show ¬(maxlength = -1) by omega)]
      have hg : gcast maxlength = maxlength.toNat := by unfold gcast; omega
      rw [hg]
      split_ifs <;> omega
  rw [hlimeq]
  cases hf : guint8_find ((t.real_data.drop ao).take lim) needle with
  | none => rfl
  | some i =>
    dsimp only
    have hi1 := (byteScan_some _ _ _ hf).1
    have hilen : ((t.real_data.drop ao).take lim).length ≤ lim := by
      simpa using List.length_take_le lim _
    rw [toGint_small _ (by omega)]

theorem tvb_pbrk_spec (t : TVB) (offset maxlength : Int) (needles : List Nat)
    (ao j0 lim : Nat)
    (hck : check_offset_length_no_exception t.toB offset 0 = .ok (ao, j0))
    (hlr : t.length ≤ t.reported_length) (hl : t.length < 2147483648)
    (hm : maxlength = -1 ∨ (0 ≤ maxlength ∧ maxlength < 2147483648))
    (hlim : lim = if maxlength = -1 then t.length - ao
      else min (t.length - ao) maxlength.toNat) :
    tvb_pbrk_guint8 t offset maxlength needles =
      .ok (match guint8_pbrk ((t.real_data.drop ao).take lim) needles with
        | some i => ((ao + i : Nat) : Int)
        | none => -1) := by
  have hao : ao ≤ t.length := check_ok_le_length t offset 0 ao j0 hl hck
  have hlim2 : lim ≤ t.length - ao := by
    rw [hlim]; split_ifs <;> omega
  unfold tvb_pbrk_guint8
  rw [hck]
  dsimp only
  rw [toGint_small ao (by omega)]
  rw [length_remaining_at t ao hao hlr hl]
  rw [gcast_ofNat_small _ (by omega)]
  have hlimeq : (if maxlength = -1 then t.length - ao
      else if t.length - ao < gcast maxlength then t.length - ao
      else gcast maxlength) = lim := by
    rcases hm with rfl | ⟨hm1, hm2⟩
    · rw [if_pos rfl, hlim, if_pos rfl]
    · rw [if_neg (show ¬(maxlength = -1) by omega), hlim,
        if_neg (show ¬(maxlength = -1) by omega)]
      have hg : gcast maxlength = maxlength.toNat := by unfold gcast; omega
      rw [hg]
      split_ifs <;> omega
  rw [hlimeq]
  cases hf : guint8_pbrk ((t.real_data.drop ao).take lim) needles with
  | none => rfl
  | some i =>
    dsimp only
    have hi1 := (byteScan_some _ _ _ hf).1
    have hilen : ((t.real_data.drop ao).take lim).length ≤ lim := by
      simpa using List.length_take_le lim _
    rw [toGint_small _ (by omega)]

theorem check_self_offset (t : TVB) (ao : Nat) (hao : ao ≤ t.length)
    (hlr : t.length ≤ t.reported_length) (hl : t.length < 2147483648) :
    check_offset_length_no_exception t.toB ((ao : Nat) : Int) 0 = .ok (ao, 0) := by
  have hc : compute_offset_length t.toB (ao : Int) 0 = .ok (ao, 0) := by
    unfold compute_offset_length computeLength gcast
    dsimp only [TVB.toB]
    rw [if_pos (by omega : (0 : Int) ≤ (ao : Int))]
    rw [if_neg (by omega), if_neg (by omega)]
    rw [if_neg (by norm_num), if_neg (by norm_num)]
    simp only [Except.ok.injEq, Prod.mk.injEq]
    constructor <;> omega
  unfold check_offset_length_no_exception
  rw [hc]
  dsimp only
  have hce : clampEnd ao 0 = ao := by
    unfold clampEnd
    split_ifs <;> omega
  rw [hce, if_pos (by dsimp only [TVB.toB]; omega)]

/-- C5 (amended): once the zero-length check of the starting offset has
passed, `tvb_find_guint8` and `tvb_pbrk_guint8` never raise: each returns
the absolute offset of the first matching byte within the search bound
(at most `maxlength` bytes, or the captured remainder when
`maxlength == -1`), or `-1` when no byte matches before the bound.  As
originally stated ("never raise any error") the claim is false: both
entry points first bounds-check the starting offset and throw on failure
(`c5_find_pbrk_counterexample`). -/
theorem c5_find_pbrk_first_match (t : TVB) (offset maxlength : Int)
    (needle : Nat) (needles : List Nat) (ao j0 lim : Nat) (hay : List Nat)
    (hck : check_offset_length_no_exception t.toB offset 0 = .ok (ao, j0))
    (hlr : t.length ≤ t.reported_length) (hl : t.length < 2147483648)
    (hm : maxlength = -1 ∨ (0 ≤ maxlength ∧ maxlength < 2147483648))
    (hlim : lim = if maxlength = -1 then t.length - ao
      else min (t.length - ao) maxlength.toNat)
    (hhay : hay = (t.real_data.drop ao).take lim) :
    (∃ r1, tvb_find_guint8 t offset maxlength needle = .ok r1
      ∧ ((∃ i, i < hay.length ∧ r1 = ((ao + i : Nat) : Int)
            ∧ hay.getD i 0 = needle ∧ ∀ j < i, hay.getD j 0 ≠ needle)
        ∨ (r1 = -1 ∧ ∀ j < hay.length, hay.getD j 0 ≠ needle)))
    ∧ (∃ r2, tvb_pbrk_guint8 t offset maxlength needles = .ok r2
      ∧ ((∃ i, i < hay.length ∧ r2 = ((ao + i : Nat) : Int)
            ∧ hay.getD i 0 ∈ needles.takeWhile (fun x => decide (x ≠ 0))
            ∧ ∀ j < i, hay.getD j 0 ∉ needles.takeWhile (fun x => decide (x ≠ 0)))
        ∨ (r2 = -1 ∧ ∀ j < hay.length,
            hay.getD j 0 ∉ needles.takeWhile (fun x => decide (x ≠ 0))))) := by
  subst hhay
  constructor
  · rw [tvb_find_spec t offset maxlength needle ao j0 lim hck hlr hl hm hlim]
    cases hf : guint8_find ((t.real_data.drop ao).take lim) needle with
    | some i =>
      obtain ⟨h1, h2, h3⟩ := byteScan_some _ _ _ hf
      exact ⟨_, rfl, Or.inl ⟨i, h1, rfl, of_decide_eq_true h2,
        fun j hj => of_decide_eq_false (h3 j hj)⟩⟩
    | none =>
      exact ⟨_, rfl, Or.inr ⟨rfl,
        fun j hj => of_decide_eq_false (byteScan_none _ _ hf j hj)⟩⟩
  · rw [tvb_pbrk_spec t offset maxlength needles ao j0 lim hck hlr hl hm hlim]
    cases hf : guint8_pbrk ((t.real_data.drop ao).take lim) needles with
    | some i =>
      obtain ⟨h1, h2, h3⟩ := byteScan_some _ _ _ hf
      exact ⟨_, rfl, Or.inl ⟨i, h1, rfl, of_decide_eq_true h2,
        fun j hj => of_decide_eq_false (h3 j hj)⟩⟩
    | none =>
      exact ⟨_, rfl, Or.inr ⟨rfl,
        fun j hj => of_decide_eq_false (byteScan_none _ _ hf j hj)⟩⟩

/-- C5 counterexample: both scan entry points validate the starting
offset through the throwing bounds check first, so with an out-of-range
offset they do raise (here: offset 1 past a zero-byte buffer raises the
reported-bounds error), refuting "never raise any error". -/
theorem c5_find_pbrk_counterexample :
    tvb_find_guint8 (.real [] 0) 1 (-1) 0 = .error .ReportedBoundsError
    ∧ tvb_pbrk_guint8 (.real [] 0) 1 (-1) [1] = .error .ReportedBoundsError := by
  have h1 : tvb_find_guint8 (.real [] 0) 1 (-1) 0 = .error .ReportedBoundsError := rfl
  have h2 : tvb_pbrk_guint8 (.real [] 0) 1 (-1) [1] = .error .ReportedBoundsError := rfl
  exact ⟨h1, h2⟩

theorem c5_find_pbrk_first_match_witness :
    (∃ r1, tvb_find_guint8 (.real [5, 6, 7] 3) 1 (-1) 7 = .ok r1
      ∧ ((∃ i, i < ([6, 7] : List Nat).length ∧ r1 = ((1 + i : Nat) : Int)
            ∧ ([6, 7] : List Nat).getD i 0 = 7 ∧ ∀ j < i, ([6, 7] : List Nat).getD j 0 ≠ 7)
        ∨ (r1 = -1 ∧ ∀ j < ([6, 7] : List Nat).length, ([6, 7] : List Nat).getD j 0 ≠ 7)))
    ∧ (∃ r2, tvb_pbrk_guint8 (.real [5, 6, 7] 3) 1 (-1) [9, 6] = .ok r2
      ∧ ((∃ i, i < ([6, 7] : List Nat).length ∧ r2 = ((1 + i : Nat) : Int)
            ∧ ([6, 7] : List Nat).getD i 0 ∈ ([9, 6] : List Nat).takeWhile (fun x => decide (x ≠ 0))
            ∧ ∀ j < i, ([6, 7] : List Nat).getD j 0 ∉ ([9, 6] : List Nat).takeWhile (fun x => decide (x ≠ 0)))
        ∨ (r2 = -1 ∧ ∀ j < ([6, 7] : List Nat).length,
            ([6, 7] : List Nat).getD j 0 ∉ ([9, 6] : List Nat).takeWhile (fun x => decide (x ≠ 0))))) := by
  have hck : check_offset_length_no_exception (TVB.real [5, 6, 7] 3).toB 1 0 =
      .ok (1, 0) := rfl
  have hlim : (2 : Nat) = if (-1 : Int) = -1 then (TVB.real [5, 6, 7] 3).length - 1
      else min ((TVB.real [5, 6, 7] 3).length - 1) (-1 : Int).toNat := rfl
  have hhay : ([6, 7] : List Nat) =
      ((TVB.real [5, 6, 7] 3).real_data.drop 1).take 2 := rfl
  exact c5_find_pbrk_first_match (.real [5, 6, 7] 3) 1 (-1) 7 [9, 6] 1 0 2 [6, 7]
    hck (by decide) (by decide) (Or.inl rfl) hlim hhay

/-- C9: `tvb_strsize` returns the byte count from the (validated) offset
through the terminating zero inclusive when one exists in the captured
data; when none does, it throws the captured-bounds error if the capture
is short of the reported length and the reported-bounds error
otherwise. -/
theorem c9_strsize_terminator (t : TVB) (offset : Int) (ao j0 : Nat) (hay : List Nat)
    (hck : check_offset_length_no_exception t.toB offset 0 = .ok (ao, j0))
    (hlr : t.length ≤ t.reported_length) (hl : t.length < 2147483648)
    (hhay : hay = (t.real_data.drop ao).take (t.length - ao)) :
    (∀ i, guint8_find hay 0 = some i →
      tvb_strsize t offset = .ok (i + 1)
        ∧ hay.getD i 0 = 0 ∧ ∀ j < i, hay.getD j 0 ≠ 0)
    ∧ (guint8_find hay 0 = none →
      (∀ j < hay.length, hay.getD j 0 ≠ 0)
        ∧ tvb_strsize t offset =
          .error (if t.length < t.reported_length then .BoundsError
            else .ReportedBoundsError)) := by
  subst hhay
  have hao : ao ≤ t.length := check_ok_le_length t offset 0 ao j0 hl hck
  have hck2 : check_offset_length_no_exception t.toB ((ao : Nat) : Int) 0 =
      .ok (ao, 0) := check_self_offset t ao hao hlr hl
  have hfind := tvb_find_spec t ((ao : Nat) : Int) (-1) 0 ao 0 (t.length - ao)
    hck2 hlr hl (Or.inl rfl) (by rw [if_pos rfl])
  have hlen2 : ((t.real_data.drop ao).take (t.length - ao)).length ≤ t.length - ao := by
    simpa using List.length_take_le (t.length - ao) (t.real_data.drop ao)
  constructor
  · intro i hf
    obtain ⟨h1, h2, h3⟩ := byteScan_some _ _ _ hf
    rw [hf] at hfind
    dsimp only at hfind
    refine ⟨?_, of_decide_eq_true h2, fun j hj => of_decide_eq_false (h3 j hj)⟩
    unfold tvb_strsize
    rw [hck]
    dsimp only
    rw [toGint_small ao (by omega), hfind]
    dsimp only
    rw [if_neg (by omega : ¬(((ao + i : Nat) : Int) = -1))]
    have hcast : ((ao + i : Nat) : Int) - (ao : Int) + 1 = ((i + 1 : Nat) : Int) := by
      push_cast
      ring
    rw [hcast, gcast_ofNat_small _ (by omega)]
  · intro hf
    rw [hf] at hfind
    dsimp only at hfind
    refine ⟨fun j hj => of_decide_eq_false (byteScan_none _ _ hf j hj), ?_⟩
    unfold tvb_strsize
    rw [hck]
    dsimp only
    rw [toGint_small ao (by omega), hfind]
    dsimp only
    rw [if_pos rfl]
    split_ifs <;> rfl

theorem c9_strsize_terminator_witness :
    tvb_strsize (.real [65, 66, 0, 67] 4) 0 = .ok (2 + 1)
    ∧ ([65, 66, 0, 67] : List Nat).getD 2 0 = 0
    ∧ ∀ j < 2, ([65, 66, 0, 67] : List Nat).getD j 0 ≠ 0 := by
  have hck : check_offset_length_no_exception (TVB.real [65, 66, 0, 67] 4).toB 0 0 =
      .ok (0, 0) := rfl
  have hhay : ([65, 66, 0, 67] : List Nat) =
      ((TVB.real [65, 66, 0, 67] 4).real_data.drop 0).take
        ((TVB.real [65, 66, 0, 67] 4).length - 0) := rfl
  have hfind : guint8_find [65, 66, 0, 67] 0 = some 2 := rfl
  exact (c9_strsize_terminator (.real [65, 66, 0, 67] 4) 0 0 0 [65, 66, 0, 67]
    hck (by decide) (by decide) hhay).1 2 hfind

/-!
Composite finalization (tvbuff.c lines 554-583).  Only the member lengths
matter: `tvb_init` starts a composite with `length = 0` and
`reported_length = 0`; the finalize loop materializes
`start_offsets[i] = tvb->length` before and `end_offsets[i] =
tvb->length - 1` after adding the length of member i (`guint` arithmetic).
The function never assigns `reported_length`, which therefore keeps its
initialization value 0.
-/

/-- The fields of a finalized composite tvbuff relevant to its length
bookkeeping. -/
structure CompTVB where
  length : Nat
  reported_length : Nat
  start_offsets : List Nat
  end_offsets : List Nat

/-- One iteration of the finalize loop (tvbuff.c lines 573-580), acting
on `(tvb->length, start_offsets, end_offsets)`. -/
def finalizeStep (acc : Nat × List Nat × List Nat) (mlen : Nat) :
    Nat × List Nat × List Nat :=
  ((acc.1 + mlen) % 4294967296,
   acc.2.1 ++ [acc.1],
   acc.2.2 ++ [((acc.1 + mlen) % 4294967296 + 4294967295) % 4294967296])

/-- `tvb_composite_finalize` (tvbuff.c lines 554-583) as a function of the
member lengths, in list order. -/
def tvb_composite_finalize (member_lengths : List Nat) : CompTVB :=
  ⟨(member_lengths.foldl finalizeStep (0, [], [])).1, 0,
   (member_lengths.foldl finalizeStep (0, [], [])).2.1,
   (member_lengths.foldl finalizeStep (0, [], [])).2.2⟩

/-- The running-sum start offsets of members with lengths `ls`, starting
at absolute offset `a`. -/
def startsFrom (a : Nat) : List Nat → List Nat
  | [] => []
  | l :: rest => a :: startsFrom (a + l) rest

/-- The inclusive end offsets of members with lengths `ls`, starting at
absolute offset `a`. -/
def endsFrom (a : Nat) : List Nat → List Nat
  | [] => []
  | l :: rest => (a + l - 1) :: endsFrom (a + l) rest

theorem finalize_loop_spec (ls : List Nat) (a : Nat) (ss es : List Nat)
    (h1 : a + ls.sum < 4294967296) (h2 : ∀ l ∈ ls, 1 ≤ l) :
    ls.foldl finalizeStep (a, ss, es) =
      (a + ls.sum, ss ++ startsFrom a ls, es ++ endsFrom a ls) := by
  induction ls generalizing a ss es with
  | nil => simp [startsFrom, endsFrom]
  | cons l rest ih =>
    have hl : 1 ≤ l := h2 l (List.mem_cons_self _ _)
    simp only [List.sum_cons] at h1
    have m2 : ((a + l) % 4294967296 + 4294967295) % 4294967296 = a + l - 1 := by
      omega
    have m1 : (a + l) % 4294967296 = a + l := by omega
    simp only [List.foldl_cons]
    have e1 : finalizeStep (a, ss, es) l = (a + l, ss ++ [a], es ++ [a + l - 1]) := by
      unfold finalizeStep
      dsimp only
      rw [m2, m1]
    rw [e1, ih (a + l) (ss ++ [a]) (es ++ [a + l - 1]) (by omega)
      (fun x hx => h2 x (List.mem_cons_of_mem _ hx))]
    simp [startsFrom, endsFrom, List.sum_cons, List.append_assoc]
    omega

theorem startsFrom_length (ls : List Nat) (a : Nat) :
    (startsFrom a ls).length = ls.length := by
  induction ls generalizing a with
  | nil => rfl
  | cons l rest ih => simp [startsFrom, ih]

theorem endsFrom_length (ls : List Nat) (a : Nat) :
    (endsFrom a ls).length = ls.length := by
  induction ls generalizing a with
  | nil => rfl
  | cons l rest ih => simp [endsFrom, ih]

theorem startsFrom_getD (ls : List Nat) (a i : Nat) (hi : i < ls.length) :
    (startsFrom a ls).getD i 0 = a + (ls.take i).sum := by
  induction ls generalizing a i with
  | nil => simp at hi
  | cons l rest ih =>
    cases i with
    | zero => simp [startsFrom]
    | succ j =>
      show (startsFrom (a + l) rest).getD j 0 = _
      rw [ih (a + l) j (by simpa using hi)]
      simp only [List.take_succ_cons, List.sum_cons]
      omega

theorem endsFrom_getD (ls : List Nat) (a i : Nat) (hi : i < ls.length) :
    (endsFrom a ls).getD i 0 = a + (ls.take i).sum + ls.getD i 0 - 1 := by
  induction ls generalizing a i with
  | nil => simp at hi
  | cons l rest ih =>
    cases i with
    | zero => simp [endsFrom]
    | succ j =>
      show (endsFrom (a + l) rest).getD j 0 = _
      rw [ih (a + l) j (by simpa using hi)]
      simp only [List.take_succ_cons, List.sum_cons]
      have : (l :: rest).getD (j + 1) 0 = rest.getD j 0 := rfl
      rw [this]
      omega

/-- C3 counterexample: `tvb_composite_finalize` never assigns
`reported_length`; the claim that after finalize `reported_length` equals
the length fails already for a single member of length 1 (the composite
keeps the initialization value 0). -/
theorem c3_finalize_counterexample :
    ¬ ((tvb_composite_finalize [1]).reported_length =
        (tvb_composite_finalize [1]).length) := by decide

/-- C3 (amended): after finalize the length of the composite equals the sum of
the member lengths and the offset tables hold the running sums
(`start_offsets[i] = Σ_{j<i} len_j`, `end_offsets[i] = start_offsets[i] +
len_i - 1`), but `reported_length` is not set equal to the length: the
finalize loop never assigns it, so it remains 0 from initialization.
(Stated for members of nonzero length with an unwrapped total.) -/
theorem c3_finalize_tables (ls : List Nat)
    (h1 : ls.sum < 4294967296) (h2 : ∀ l ∈ ls, 1 ≤ l) :
    (tvb_composite_finalize ls).length = ls.sum
    ∧ (tvb_composite_finalize ls).reported_length = 0
    ∧ (tvb_composite_finalize ls).start_offsets.length = ls.length
    ∧ (tvb_composite_finalize ls).end_offsets.length = ls.length
    ∧ ∀ i, i < ls.length →
      (tvb_composite_finalize ls).start_offsets.getD i 0 = (ls.take i).sum
      ∧ (tvb_composite_finalize ls).end_offsets.getD i 0 =
        (ls.take i).sum + ls.getD i 0 - 1 := by
  have hf := finalize_loop_spec ls 0 [] [] (by omega) h2
  unfold tvb_composite_finalize
  rw [hf]
  dsimp only
  refine ⟨by omega, rfl, by simp [startsFrom_length], by simp [endsFrom_length], ?_⟩
  intro i hi
  constructor
  · show (startsFrom 0 ls).getD i 0 = (ls.take i).sum
    rw [startsFrom_getD ls 0 i hi]
    omega
  · show (endsFrom 0 ls).getD i 0 = (ls.take i).sum + ls.getD i 0 - 1
    rw [endsFrom_getD ls 0 i hi]
    omega

theorem c3_finalize_tables_witness :
    (tvb_composite_finalize [3, 2, 4]).length = ([3, 2, 4] : List Nat).sum
    ∧ (tvb_composite_finalize [3, 2, 4]).reported_length = 0
    ∧ (tvb_composite_finalize [3, 2, 4]).start_offsets.length =
        ([3, 2, 4] : List Nat).length
    ∧ (tvb_composite_finalize [3, 2, 4]).end_offsets.length =
        ([3, 2, 4] : List Nat).length
    ∧ ∀ i, i < ([3, 2, 4] : List Nat).length →
      (tvb_composite_finalize [3, 2, 4]).start_offsets.getD i 0 =
          (([3, 2, 4] : List Nat).take i).sum
      ∧ (tvb_composite_finalize [3, 2, 4]).end_offsets.getD i 0 =
          (([3, 2, 4] : List Nat).take i).sum + ([3, 2, 4] : List Nat).getD i 0 - 1 :=
  c3_finalize_tables [3, 2, 4] (by decide) (by decide)

/-!
Lifecycle (tvbuff.c lines 134-253 and 524-546).  Buffers live in a heap
indexed by `Nat` ids; `usage_count` is a `guint` (the decrement in
`tvb_free` wraps mod 2^32), `used_in` is the per-buffer GSList, and the
variant payload keeps the subset backing / composite member ids.  The
mutually recursive routines are run by a single fuel-bounded interpreter
(every modelled scenario terminates far below the fuel).  The `released`
list records each `g_chunk_free(tvb)` in execution order.
-/

/-- The variant payload relevant to teardown. -/
inductive TKind where
  | realk
  | subsetk (backing : Nat)
  | compositek (members : List Nat)

/-- One tvbuff header: usage count, used_in list, variant payload. -/
structure TObj where
  usage : Nat
  used_in : List Nat
  kind : TKind

/-- The buffer heap plus the log of released buffer ids. -/
structure LHeap where
  objs : Nat → TObj
  released : List Nat

/-- Store object `o` at id `i`. -/
def setObj (h : LHeap) (i : Nat) (o : TObj) : LHeap :=
  ⟨fun j => if j = i then o else h.objs j, h.released⟩

/-- Pending lifecycle work: the bodies of `tvb_free`,
`tvb_decrement_usage_count` and `tvb_free_chain`, plus their list
walks. -/
inductive LTask where
  | free (i : Nat)
  | dec (i count : Nat)
  | decList (ms : List Nat)
  | chain (i : Nat)
  | chainList (ms : List Nat)

/-- Fuel-bounded interpreter for the mutually recursive lifecycle
routines (tvbuff.c lines 134-226).  `.free i` is `tvb_free`: decrement
the usage count (`guint` wrap); at zero, dispatch on the variant
(a subset decrements its backing once, a composite decrements every
member once), release the `used_in` list and the header, and log the
release.  `.dec i count` is `tvb_decrement_usage_count`: if
`usage_count <= count`, set the count to 1 and `tvb_free`; else
subtract.  `.chain i` is `tvb_free_chain`: recursively free-chain every
buffer in `used_in`, then `tvb_free` the buffer itself. -/
def lifecycleRun (fuel : Nat) (h : LHeap) (t : LTask) : LHeap :=
  match fuel with
  | 0 => h
  | fuel + 1 =>
    match t with
    | .free i =>
      let o := h.objs i
      let u := (o.usage + 4294967295) % 4294967296
      if u = 0 then
        let h1 := match o.kind with
          | .realk => h
          | .subsetk b => lifecycleRun fuel h (.dec b 1)
          | .compositek ms => lifecycleRun fuel h (.decList ms)
        ⟨fun j => if j = i then ⟨u, [], o.kind⟩ else h1.objs j, h1.released ++ [i]⟩
      else setObj h i ⟨u, o.used_in, o.kind⟩
    | .dec i count =>
      let o := h.objs i
      if o.usage ≤ count then
        lifecycleRun fuel (setObj h i ⟨1, o.used_in, o.kind⟩) (.free i)
      else setObj h i ⟨o.usage - count, o.used_in, o.kind⟩
    | .decList [] => h
    | .decList (m :: rest) =>
      lifecycleRun fuel (lifecycleRun fuel h (.dec m 1)) (.decList rest)
    | .chain i =>
      lifecycleRun fuel (lifecycleRun fuel h (.chainList (h.objs i).used_in)) (.free i)
    | .chainList [] => h
    | .chainList (m :: rest) =>
      lifecycleRun fuel (lifecycleRun fuel h (.chain m)) (.chainList rest)

/-- `tvb_free` (tvbuff.c lines 134-189). -/
def tvb_free (h : LHeap) (i : Nat) : LHeap := lifecycleRun 1000 h (.free i)

/-- `tvb_free_chain` (tvbuff.c lines 214-226). -/
def tvb_free_chain (h : LHeap) (i : Nat) : LHeap := lifecycleRun 1000 h (.chain i)

/-- `add_to_used_in_list` (tvbuff.c lines 238-243): prepend `used` to
the used_in list of `tvb` and increment the usage count of `tvb`. -/
def add_to_used_in_list (h : LHeap) (tvb used : Nat) : LHeap :=
  setObj h tvb ⟨((h.objs tvb).usage + 1) % 4294967296,
    used :: (h.objs tvb).used_in, (h.objs tvb).kind⟩

/-- `tvb_composite_append` (tvbuff.c lines 524-534): append the member to
`composite->tvbs`, then `add_to_used_in_list(tvb, member)` — the
composite itself, not the member, receives the used_in entry and the
usage increment. -/
def tvb_composite_append (h : LHeap) (c m : Nat) : LHeap :=
  add_to_used_in_list
    (setObj h c ⟨(h.objs c).usage, (h.objs c).used_in,
      match (h.objs c).kind with
      | .compositek ms => .compositek (ms ++ [m])
      | k => k⟩) c m

/-- The C10 scenario `C = compose(A, B)`: ids A = 0, B = 1, C = 2, each
freshly created with usage count 1 (`tvb_new`), then
`tvb_composite_append(C, A)` and `tvb_composite_append(C, B)`. -/
def heapCAB : LHeap :=
  tvb_composite_append (tvb_composite_append
    ⟨fun i => if i = 0 then ⟨1, [], .realk⟩
      else if i = 1 then ⟨1, [], .realk⟩
      else if i = 2 then ⟨1, [], .compositek []⟩
      else ⟨0, [], .realk⟩, []⟩ 2 0) 2 1

/-- C10 counterexample: `free_chain(C)` does not release the composite C
itself even once (its usage count was incremented by each append, so the
final `tvb_free(C)` only decrements 3 to 2), refuting "releases C, A, and
B each exactly once". -/
theorem c10_free_chain_counterexample :
    ¬ ((tvb_free_chain heapCAB 2).released.count 2 = 1) := by decide

/-- C10 (amended): `free_chain(C)` releases the members exactly once each
via the recursive pass over the used_in list of C (B first, then A, matching
the prepend order), but C itself is left unreleased with usage count 2:
each `tvb_composite_append` incremented the count of C itself, so the final
`tvb_free(C)` does not reach zero. -/
theorem c10_free_chain_members_only :
    (tvb_free_chain heapCAB 2).released = [1, 0]
    ∧ ((tvb_free_chain heapCAB 2).objs 2).usage = 2
    ∧ ((tvb_free_chain heapCAB 2).objs 0).usage = 0
    ∧ ((tvb_free_chain heapCAB 2).objs 1).usage = 0 := by
  refine ⟨?_, ?_, ?_, ?_⟩ <;> decide

/-!
Gzip header walk of `tvb_uncompress` (tvbuff.c lines 2947-3021).  When
`inflate` reports `Z_DATA_ERROR` on the first pass and the copied
compressed buffer starts with the gzip magic `1f 8b`, the code skips the
gzip header by hand and retries.  The walk below models that branch over
the `comprlen`-byte copy made by `tvb_memdup`; each byte read is
explicit, and a read at or past `comprlen` — the out-of-bounds read the
spec rules out — is a distinguished outcome instead of undefined
behavior.
-/

/-- Outcome of the header walk: `.fail` is the branch returning NULL,
`.next pos` is "reset the stream and retry at `pos`", and `.overread`
marks a byte read at or past the end of the copied buffer. -/
inductive GzipWalk where
  | fail
  | next (pos : Nat)
  | overread

/-- Read one byte of the copied compressed buffer; indexes at or past
`comprlen` are out of bounds. -/
def rdByte (data : List Nat) (comprlen i : Nat) : Option Nat :=
  if i < comprlen then some (data.getD i 0) else none

/-- The loops over the optional null-terminated filename and comment
fields (tvbuff.c lines 2993-2995 and 3003-3005):
`while ((c - compr) < comprlen && *c != 0) c++;`.  The fuel `k` is the
distance `comprlen - c` still scannable, so the bound test comes before
every read and no byte at or past `comprlen` is inspected. -/
def skipZString (data : List Nat) (c : Nat) : Nat → Nat
  | 0 => c
  | k + 1 => if data.getD c 0 ≠ 0 then skipZString data (c + 1) k else c

theorem skipZString_zero (data : List Nat) (c : Nat) :
    skipZString data c 0 = c := rfl

theorem skipZString_no_zero (data : List Nat) (c k : Nat)
    (h : ∀ i, c ≤ i → i < c + k → data.getD i 0 ≠ 0) :
    skipZString data c k = c + k := by
  induction k generalizing c with
  | zero => rfl
  | succ k ih =>
    unfold skipZString
    rw [if_pos (h c (le_refl c) (by omega))]
    rw [ih (c + 1) (fun i h1 h2 => h i (by omega) (by omega))]
    omega

/-- The gzip-header branch of `tvb_uncompress` (tvbuff.c lines
2947-3021): check the compression-method byte (`Z_DEFLATED` = 8, else
return NULL), read the flags byte, skip MTIME/XFL/OS (cursor at 10),
skip the optional extra field (`c += xsize` with `xsize = *c | *(c+1)
<< 8`), skip the optional null-terminated filename and comment with the
bounded loops, then return NULL (`.fail`) if `c - compr > comprlen`,
else retry inflate at the new cursor (`.next`). -/
def gzipSkipHeader (data : List Nat) (comprlen : Nat) : GzipWalk :=
  match rdByte data comprlen 2 with
  | none => .overread
  | some m =>
    if m ≠ 8 then .fail
    else match rdByte data comprlen 3 with
      | none => .overread
      | some flags =>
        match (if flags.testBit 2 then
            match rdByte data comprlen 10, rdByte data comprlen 11 with
            | some x0, some x1 => some (10 + (x0 ||| (x1 <<< 8)))
            | _, _ => none
          else some 10) with
        | none => .overread
        | some c0 =>
          let c1 := if flags.testBit 3 then
              skipZString data c0 (comprlen - c0) + 1
            else c0
          let c2 := if flags.testBit 4 then
              skipZString data c1 (comprlen - c1) + 1
            else c1
          if c2 > comprlen then .fail else .next c2

/-- C4 counterexample: inside the optional extra field (FEXTRA) branch
the walk is not bounded: `xsize` is read from offsets 10 and 11 with no
check against `comprlen` (tvbuff.c lines 2982-2988), and `c += xsize` is
an unbounded cursor advance.  This 11-byte input satisfies every premise
of the claim — gzip magic, deflate method byte, a declared
null-terminated filename (flags `0x0c` = FEXTRA|FNAME) with no zero byte
before the end of the compressed range — yet the walk reads at offset
11 = `comprlen`, past the end of the copied buffer, so the read-free
return-NULL path is not reached. -/
theorem c4_gzip_header_counterexample :
    gzipSkipHeader [0x1f, 0x8b, 8, 0x0c, 0, 0, 0, 0, 0, 0, 65] 11 = .overread
    ∧ ¬ (gzipSkipHeader [0x1f, 0x8b, 8, 0x0c, 0, 0, 0, 0, 0, 0, 65] 11 = .fail) := by
  have h : gzipSkipHeader [0x1f, 0x8b, 8, 0x0c, 0, 0, 0, 0, 0, 0, 65] 11 =
      .overread := rfl
  exact ⟨h, by rw [h]; exact fun hc => GzipWalk.noConfusion hc⟩

/-- C4 (amended): for an input beginning with the gzip magic whose header
has no extra field (FEXTRA clear) and declares a null-terminated filename
and/or comment lacking a terminating zero byte before the end of the
compressed buffer, the gzip header walk returns NULL (`.fail` — so
`tvb_uncompress` returns null) and never reads at or past `comprlen`: the
`.overread` outcome is unreachable, because the filename/comment loops
test the bound before every read.  (Any compression-method byte is
covered: a non-deflate method returns NULL immediately.  The FEXTRA
restriction is forced by `c4_gzip_header_counterexample`: the extra-field
skip is not bounded.) -/
theorem c4_gzip_header_no_overread (data : List Nat) (comprlen flags : Nat)
    (hlen : comprlen = data.length) (h4 : 4 ≤ comprlen)
    (hmagic : data.getD 0 0 = 0x1f ∧ data.getD 1 0 = 0x8b)
    (hflags : flags = data.getD 3 0)
    (hextra : flags.testBit 2 = false)
    (hname : flags.testBit 3 = true ∨ flags.testBit 4 = true)
    (hnozero : ∀ i, 10 ≤ i → i < comprlen → data.getD i 0 ≠ 0) :
    gzipSkipHeader data comprlen = .fail := by
  unfold gzipSkipHeader
  have hr2 : rdByte data comprlen 2 = some (data.getD 2 0) := by
    unfold rdByte
    rw [if_pos (by omega)]
  have hr3 : rdByte data comprlen 3 = some flags := by
    unfold rdByte
    rw [if_pos (by omega), hflags]
  rw [hr2]
  dsimp only
  by_cases hm : data.getD 2 0 = 8
  case neg =>
    rw [if_pos hm]
  rw [if_neg (fun hne => hne hm), hr3]
  dsimp only
  rw [hextra]
  rw [if_neg Bool.false_ne_true]
  dsimp only
  have hskip10 : skipZString data 10 (comprlen - 10) = 10 + (comprlen - 10) :=
    skipZString_no_zero data 10 (comprlen - 10)
      (fun i h1 h2 => hnozero i h1 (by omega))
  cases hb3 : flags.testBit 3 with
  | true =>
    rw [if_pos rfl, hskip10]
    cases hb4 : flags.testBit 4 with
    | true =>
      rw [if_pos rfl]
      have hk0 : comprlen - (10 + (comprlen - 10) + 1) = 0 := by omega
      rw [hk0, skipZString_zero]
      rw [if_pos (by omega)]
    | false =>
      rw [if_neg Bool.false_ne_true]
      rw [if_pos (by omega)]
  | false =>
    rw [if_neg Bool.false_ne_true]
    cases hb4 : flags.testBit 4 with
    | true =>
      rw [if_pos rfl, hskip10]
      rw [if_pos (by omega)]
    | false =>
      rcases hname with hn | hn
      · rw [hb3] at hn
        exact absurd hn (by simp)
      · rw [hb4] at hn
        exact absurd hn (by simp)

theorem c4_gzip_header_no_overread_witness :
    gzipSkipHeader [0x1f, 0x8b, 8, 8, 0, 0, 0, 0, 0, 0, 65, 66] 12 = .fail :=
  c4_gzip_header_no_overread [0x1f, 0x8b, 8, 8, 0, 0, 0, 0, 0, 0, 65, 66] 12 8
    (by decide) (by decide) (by decide) (by decide) (by decide)
    (Or.inl (by decide))
    (by
      intro i h1 h2
      interval_cases i <;> decide)

end TVBSpec
